import Mathlib

/-! Perceptron branch predictor (`func_sim`).

A shallow embedding of `func_sim/include/func_sim.hpp` and
`func_sim/src/func_sim.cpp`, followed by theorems about it.

Conventions of the embedding:

* `std::vector<int8_t>` / `std::vector<bool>` are `List Int` / `List Bool`;
  element reads are `List.getD`, element writes are `List.set`.  The sizes the
  constructors establish (`HISTORY_LENGTH`, `NUM_PERCEPTRONS`) are carried as
  well-formedness predicates.
* `int32_t` intermediates never leave the 32-bit range for 8-bit operands, so
  they are plain `Int`; a store into an `int8_t` goes through `toInt8`.
* `uint32_t` values are `Nat`; `uint32_t` arithmetic that can wrap is reduced
  modulo `2 ^ 32` explicitly.
-/

namespace FuncSim

/-! ## Constants of `func_sim.hpp` -/

def B_TYPE_INST_MASK : Nat := 0b1111111
def B_TYPE_OPCODE : Nat := 0b1100011

def HISTORY_LENGTH : Nat := 4
def TRAINING_THRESHOLD : Int := 2
def BIT_WIDTH_WEIGHTS : Nat := 4
def BIT_WIDTH_Y : Nat := 9

def STORAGE_B : Nat := 128
def STORAGE_PER_PERCEPTRON : Nat := HISTORY_LENGTH * BIT_WIDTH_WEIGHTS
/-- `(int)floor(STORAGE_B / STORAGE_PER_PERCEPTRON)`: the quotient is already an
integer division of two `int` constants. -/
def NUM_PERCEPTRONS : Nat := STORAGE_B / STORAGE_PER_PERCEPTRON

def Y_MAX : Int := ((1 <<< (BIT_WIDTH_Y - 1) : Nat) : Int) - 1
def WEIGHT_MAX : Int := ((1 <<< (BIT_WIDTH_WEIGHTS - 1) : Nat) : Int) - 1

def CHECK_OVERFLOW_Y (x : Int) : Bool := decide (x > Y_MAX) || decide (x < -Y_MAX - 1)
def CHECK_OVERFLOW_WEIGHT (x : Int) : Bool :=
  decide (x > WEIGHT_MAX) || decide (x < -WEIGHT_MAX - 1)

/-! ## Machine-integer helpers -/

/-- Conversion of an `int` value to `int8_t` (two's complement, modulo 256). -/
def toInt8 (x : Int) : Int := (x + 128) % 256 - 128

/-- C `abs` on an `int` operand. -/
def cabs (x : Int) : Int := if x < 0 then -x else x

/-- A `bool` operand promoted to `int`. -/
def boolToInt (b : Bool) : Int := if b then 1 else 0

/-! ## Perceptron -/

structure Perceptron where
  weights : List Int
deriving DecidableEq, Repr

/-- `Perceptron::Perceptron()`: `weights(HISTORY_LENGTH, 0)`. -/
def Perceptron.new : Perceptron := { weights := List.replicate HISTORY_LENGTH 0 }

instance : Inhabited Perceptron := ⟨Perceptron.new⟩

/-- `Perceptron::reset`: `fill(weights.begin(), weights.end(), 0)`. -/
def Perceptron.reset (p : Perceptron) : Perceptron :=
  { weights := p.weights.map (fun _ => 0) }

/-- The shape the constructor gives a perceptron and the range the weight
overflow block is meant to maintain: `HISTORY_LENGTH` weights, each within the
signed range of `BIT_WIDTH_WEIGHTS` bits. -/
def Perceptron.WF (p : Perceptron) : Prop :=
  p.weights.length = HISTORY_LENGTH ∧ ∀ w ∈ p.weights, -WEIGHT_MAX - 1 ≤ w ∧ w ≤ WEIGHT_MAX

instance (p : Perceptron) : Decidable p.WF := by
  unfold Perceptron.WF; infer_instance

/-- The body of the `if (CHECK_OVERFLOW_Y(y))` block in `Perceptron::predict`. -/
def wrapY (y : Int) : Int :=
  if CHECK_OVERFLOW_Y y then
    if y > 0 then
      let overflow_amount := y - Y_MAX
      (-Y_MAX - 1) + (overflow_amount - 1)
    else
      let overflow_amount := cabs y - (Y_MAX + 1)
      Y_MAX - (overflow_amount - 1)
  else y

/-- One iteration of the loop of `Perceptron::predict`: `y` is assigned (not
accumulated) the product for position `i`, then passed through the overflow
block.  The incoming `y` is not read. -/
def Perceptron.predictStep (p : Perceptron) (global_history : List Bool)
    (_y : Int) (i : Nat) : Int :=
  wrapY (p.weights.getD i 0 * boolToInt (global_history.getD i false))

/-- The value of `y` when the loop of `Perceptron::predict` ends. -/
def Perceptron.predictY (p : Perceptron) (global_history : List Bool) : Int :=
  (List.range HISTORY_LENGTH).foldl (p.predictStep global_history) 0

/-- `Perceptron::predict`: `return (y >= 0)`. -/
def Perceptron.predict (p : Perceptron) (global_history : List Bool) : Bool :=
  decide (p.predictY global_history ≥ 0)

/-- The body of the `if (CHECK_OVERFLOW_WEIGHT(weights[i]))` block in
`Perceptron::update`; the results are stored back into an `int8_t`. -/
def wrapWeight (w : Int) : Int :=
  if CHECK_OVERFLOW_WEIGHT w then
    if w > 0 then
      let overflow_amount := w - WEIGHT_MAX
      toInt8 ((-WEIGHT_MAX - 1) + (overflow_amount - 1))
    else
      let overflow_amount := cabs w - (WEIGHT_MAX + 1)
      toInt8 (WEIGHT_MAX - (overflow_amount - 1))
  else w

/-- One iteration of the training loop: `weights[i] += branch_direction ? 1 : -1`
followed by the overflow block. -/
def trainWeight (branch_direction : Bool) (w : Int) : Int :=
  wrapWeight (toInt8 (w + (if branch_direction then 1 else -1)))

def Perceptron.trainStep (branch_direction : Bool) (ws : List Int) (i : Nat) : List Int :=
  ws.set i (trainWeight branch_direction (ws.getD i 0))

/-- The training loop of `Perceptron::update` over `i = 0 .. HISTORY_LENGTH - 1`. -/
def Perceptron.train (p : Perceptron) (branch_direction : Bool) : Perceptron :=
  { weights := (List.range HISTORY_LENGTH).foldl (Perceptron.trainStep branch_direction) p.weights }

/-- The local `int8_t y = predict(global_history)` of `Perceptron::update`: the
`bool` result of `predict` converted to `int8_t`. -/
def Perceptron.updateY (p : Perceptron) (global_history : List Bool) : Int :=
  toInt8 (boolToInt (p.predict global_history))

/-- The guard `y != branch_direction || abs(y) <= TRAINING_THRESHOLD`. -/
def Perceptron.updateCond (p : Perceptron) (branch_direction : Bool)
    (global_history : List Bool) : Bool :=
  (p.updateY global_history != boolToInt branch_direction)
    || decide (cabs (p.updateY global_history) ≤ TRAINING_THRESHOLD)

/-- `Perceptron::update`. -/
def Perceptron.update (p : Perceptron) (branch_direction : Bool)
    (global_history : List Bool) : Perceptron :=
  if p.updateCond branch_direction global_history then p.train branch_direction else p

/-! ## Branch predictor -/

structure BranchPredictor where
  perceptrons : List Perceptron
  global_history : List Bool
deriving DecidableEq, Repr

/-- `BranchPredictor::BranchPredictor()`: `NUM_PERCEPTRONS` default-constructed
perceptrons, each then `reset`, and an all-false history of `HISTORY_LENGTH` bits. -/
def BranchPredictor.new : BranchPredictor :=
  { perceptrons := (List.replicate NUM_PERCEPTRONS Perceptron.new).map Perceptron.reset
    global_history := List.replicate HISTORY_LENGTH false }

/-- `BranchPredictor::branch_address_hash`. -/
def branch_address_hash (branch_address : Nat) : Nat :=
  (branch_address >>> 2) % NUM_PERCEPTRONS

/-- `BranchPredictor::predict`. -/
def BranchPredictor.predict (s : BranchPredictor) (branch_address : Nat) : Bool :=
  let index := branch_address_hash branch_address
  (s.perceptrons.getD index default).predict s.global_history

/-- One iteration of the shifting loop: `global_history[i] = global_history[i - 1]`. -/
def shiftStep (gh : List Bool) (i : Nat) : List Bool :=
  gh.set i (gh.getD (i - 1) false)

/-- The history update of `BranchPredictor::update`: the loop over
`i = HISTORY_LENGTH - 1, ..., 1`, then `global_history[0] = branch_direction`. -/
def pushHistory (gh : List Bool) (branch_direction : Bool) : List Bool :=
  ((List.range' 1 (HISTORY_LENGTH - 1)).reverse.foldl shiftStep gh).set 0 branch_direction

/-- `BranchPredictor::update`. -/
def BranchPredictor.update (s : BranchPredictor) (branch_address : Nat)
    (branch_direction : Bool) : BranchPredictor :=
  let index := branch_address_hash branch_address
  { perceptrons :=
      s.perceptrons.set index
        ((s.perceptrons.getD index default).update branch_direction s.global_history)
    global_history := pushHistory s.global_history branch_direction }

/-- A sequence of `update(address, outcome)` calls, applied in list order. -/
def BranchPredictor.run (s : BranchPredictor) (calls : List (Nat × Bool)) : BranchPredictor :=
  calls.foldl (fun t c => t.update c.1 c.2) s

/-! ## Evaluation loop of `main` -/

/-- The locals of `main` that the evaluation loop reads and writes. -/
structure RunState where
  branch_predictor : BranchPredictor
  total_branches : Nat
  correct_predictions : Nat
deriving DecidableEq, Repr

/-- The state on entry to the loop: a fresh predictor and both counters zero. -/
def RunState.start : RunState :=
  { branch_predictor := BranchPredictor.new, total_branches := 0, correct_predictions := 0 }

/-- `bool branch_taken = (next_branch_addr != current_branch_addr + 4)`, the sum
being a `uint32_t`. -/
def branchTaken (current_branch_addr next_branch_addr : Nat) : Bool :=
  next_branch_addr != (current_branch_addr + 4) % 2 ^ 32

/-- `(instruction & B_TYPE_INST_MASK) == B_TYPE_OPCODE`. -/
def isBType (instruction : Nat) : Bool :=
  (instruction &&& B_TYPE_INST_MASK) == B_TYPE_OPCODE

/-- The body of the evaluation loop once its three vector reads are done.  The
counters are `uint32_t`, so `++` is modulo `2 ^ 32`. -/
def loopBody (current_branch_addr next_branch_addr instruction : Nat) (st : RunState) :
    RunState :=
  if isBType instruction then
    let branch_taken := branchTaken current_branch_addr next_branch_addr
    let prediction := st.branch_predictor.predict current_branch_addr
    { branch_predictor := st.branch_predictor.update current_branch_addr branch_taken
      total_branches := (st.total_branches + 1) % 2 ^ 32
      correct_predictions :=
        if branch_taken == prediction then (st.correct_predictions + 1) % 2 ^ 32
        else st.correct_predictions }
  else st

/-- Iteration `i` of the evaluation loop; `none` when one of the reads
`branch_addresses[i]`, `branch_addresses[i + 1]`, `instructions[i]` is out of range. -/
def loopIter (branch_addresses instructions : List Nat) (i : Nat) (st : RunState) :
    Option RunState :=
  match branch_addresses[i]?, branch_addresses[i + 1]?, instructions[i]? with
  | some cur, some next, some instruction => some (loopBody cur next instruction st)
  | _, _, _ => none

/-- The iterations `i, i + 1, ..., i + n - 1` of the evaluation loop. -/
def loopFrom (branch_addresses instructions : List Nat) : Nat → Nat → RunState → Option RunState
  | 0, _, st => some st
  | n + 1, i, st =>
    (loopIter branch_addresses instructions i st).bind
      (loopFrom branch_addresses instructions n (i + 1))

/-- The loop bound `branch_addresses.size() - 1`, a 64-bit `size_t`. -/
def loopBound (size : Nat) : Nat := (size + 2 ^ 64 - 1) % 2 ^ 64

/-- The evaluation loop of `main` on the parsed trace: every matched line pushes
its address and its instruction word onto the two vectors. -/
def mainLoop (trace : List (Nat × Nat)) : Option RunState :=
  let branch_addresses := trace.map Prod.fst
  let instructions := trace.map Prod.snd
  loopFrom branch_addresses instructions (loopBound branch_addresses.length) 0 RunState.start

/-- The value of `y` inside `BranchPredictor::predict(branch_address)`: the `y` of
`perceptrons[index].predict(global_history)`. -/
def BranchPredictor.predictY (s : BranchPredictor) (branch_address : Nat) : Int :=
  let index := branch_address_hash branch_address
  (s.perceptrons.getD index default).predictY s.global_history

/-- `BranchPredictor::predict` as a member call on a non-`const` object: the value
returned and the object after the call.  Neither this body nor that of
`Perceptron::predict` assigns to a member, so the object is handed back as it was. -/
def BranchPredictor.predictCall (s : BranchPredictor) (branch_address : Nat) :
    Bool × BranchPredictor :=
  (s.predict branch_address, s)

/-- The value class of the `float` quotient `(float)c / t` of two `uint32_t`
counters under IEEE 754: `0 / 0` is a NaN, `c / 0` with `c > 0` is an infinity, and
with `t > 0` the quotient is a finite number, kept here by its two operands. -/
inductive FloatQuotient where
  | nan : FloatQuotient
  | infinity : FloatQuotient
  | finite (numerator denominator : Nat) : FloatQuotient
deriving DecidableEq, Repr

/-- `(float)correct_predictions / total_branches`. -/
def floatDiv (correct_predictions total_branches : Nat) : FloatQuotient :=
  if total_branches = 0 then
    if correct_predictions = 0 then FloatQuotient.nan else FloatQuotient.infinity
  else FloatQuotient.finite correct_predictions total_branches

/-- The end of `main`: `float accuracy = (float)correct_predictions / total_branches`
is computed and written in the line `Accuracy: ...`, on every path that leaves the
loop. -/
def mainAccuracy (trace : List (Nat × Nat)) : Option FloatQuotient :=
  (mainLoop trace).map (fun st => floatDiv st.correct_predictions st.total_branches)

/-! ## Specification-side definitions -/

/-- The weighted sum as the specification words it: every position contributes,
the running value being passed through the overflow block after each term. -/
def weightedSumSpec (weights : List Int) (global_history : List Bool) : Int :=
  (List.range HISTORY_LENGTH).foldl
    (fun y i => wrapY (y + weights.getD i 0 * boolToInt (global_history.getD i false))) 0

/-- The training rule as the specification words it: train iff the predicted
direction disagrees with the outcome or the magnitude of the predicted value is
within the threshold. -/
def shouldTrainSpec (p : Perceptron) (outcome : Bool) (global_history : List Bool) : Bool :=
  (p.predict global_history != outcome)
    || decide (cabs (p.predictY global_history) ≤ TRAINING_THRESHOLD)

/-- Address of trace record `i`. -/
def addrAt (trace : List (Nat × Nat)) (i : Nat) : Nat := (trace.map Prod.fst).getD i 0

/-- Instruction word of trace record `i`. -/
def instrAt (trace : List (Nat × Nat)) (i : Nat) : Nat := (trace.map Prod.snd).getD i 0

/-- The loop state after the first `i` iterations, i.e. on entry to iteration `i`. -/
def stateBefore (trace : List (Nat × Nat)) (i : Nat) : Option RunState :=
  loopFrom (trace.map Prod.fst) (trace.map Prod.snd) i 0 RunState.start

/-- Positions counted by the loop: every record but the last whose instruction is
branch-type. -/
def branchPositions (trace : List (Nat × Nat)) : List Nat :=
  (List.range (trace.length - 1)).filter (fun i => isBType (instrAt trace i))

/-- Position `i` is one at which the prediction made on entry to iteration `i`
equals the actual outcome. -/
def predictedRight (trace : List (Nat × Nat)) (i : Nat) : Bool :=
  (stateBefore trace i).map (fun st => st.branch_predictor.predict (addrAt trace i))
    == some (branchTaken (addrAt trace i) (addrAt trace (i + 1)))

/-- The final result as the specification words it: a result of its own when no
branch was counted, the quotient otherwise. -/
inductive ReportSpec where
  | noBranchesObserved : ReportSpec
  | accuracy (q : FloatQuotient) : ReportSpec
deriving DecidableEq, Repr

/-- The report the specification asks for from the two counters. -/
def reportSpec (correct_predictions total_branches : Nat) : ReportSpec :=
  if total_branches = 0 then ReportSpec.noBranchesObserved
  else ReportSpec.accuracy (floatDiv correct_predictions total_branches)

/-- The report `main` makes: always the accuracy line. -/
def mainReport (trace : List (Nat × Nat)) : Option ReportSpec :=
  (mainAccuracy trace).map ReportSpec.accuracy

/-- Two's-complement wrap into the signed range of `BIT_WIDTH_WEIGHTS = 4` bits. -/
def wrap4 (x : Int) : Int := (x + 8) % 16 - 8

/-- The outcomes of a sequence of `update` calls, most recent first. -/
def recentOutcomes (calls : List (Nat × Bool)) : List Bool :=
  calls.reverse.map Prod.snd

/-! # Theorems -/

set_option maxRecDepth 16384

/-! ## Basic facts about the constants and helpers -/

theorem weight_max_eq : WEIGHT_MAX = 7 := by decide

theorem y_max_eq : Y_MAX = 255 := by decide

theorem num_perceptrons_eq : NUM_PERCEPTRONS = 8 := by decide

theorem toInt8_of_range (x : Int) (h1 : -128 ≤ x) (h2 : x ≤ 127) : toInt8 x = x := by
  unfold toInt8; omega

/-- Closed form of one training step on an in-range weight. -/
theorem trainWeight_of_range (dir : Bool) (w : Int) (h1 : -8 ≤ w) (h2 : w ≤ 7) :
    trainWeight dir w =
      if dir then (if w = 7 then -8 else w + 1) else (if w = -8 then 7 else w - 1) := by
  unfold trainWeight wrapWeight CHECK_OVERFLOW_WEIGHT cabs toInt8
  rw [weight_max_eq]
  cases dir <;> simp only [Bool.false_eq_true, if_true, if_false, Bool.or_eq_true,
    decide_eq_true_eq] <;> split_ifs <;> omega

theorem trainWeight_range (dir : Bool) (w : Int) (h1 : -8 ≤ w) (h2 : w ≤ 7) :
    -8 ≤ trainWeight dir w ∧ trainWeight dir w ≤ 7 := by
  rw [trainWeight_of_range dir w h1 h2]
  split_ifs <;> omega

/-- The product of an 8-bit weight and a history bit never triggers the `y` wrap. -/
theorem wrapY_of_range (y : Int) (h1 : -256 ≤ y) (h2 : y ≤ 255) : wrapY y = y := by
  unfold wrapY CHECK_OVERFLOW_Y
  rw [y_max_eq]
  have : (decide (y > 255) || decide (y < -255 - 1)) = false := by
    simp only [Bool.or_eq_false_iff, decide_eq_false_iff_not]; omega
  rw [this]; rfl

/-! ## Perceptron lemmas -/

/-- On a four-element weight vector the training loop rewrites every entry once. -/
theorem train_four (dir : Bool) (a b c d : Int) :
    (Perceptron.mk [a, b, c, d]).train dir =
      ⟨[trainWeight dir a, trainWeight dir b, trainWeight dir c, trainWeight dir d]⟩ := by
  rfl

theorem exists_four {α : Type} (l : List α) (h : l.length = 4) :
    ∃ a b c d, l = [a, b, c, d] := by
  match l, h with
  | [a, b, c, d], _ => exact ⟨a, b, c, d, rfl⟩

/-- The local `y` of `Perceptron::update` is the 0/1 image of the prediction. -/
theorem updateY_eq (p : Perceptron) (gh : List Bool) :
    p.updateY gh = if p.predict gh then 1 else 0 := by
  unfold Perceptron.updateY boolToInt
  cases p.predict gh <;> decide

/-- The guard of `Perceptron::update` holds in every state. -/
theorem updateCond_true (p : Perceptron) (dir : Bool) (gh : List Bool) :
    p.updateCond dir gh = true := by
  unfold Perceptron.updateCond
  rw [updateY_eq]
  cases p.predict gh <;> cases dir <;> decide

theorem update_eq_train (p : Perceptron) (dir : Bool) (gh : List Bool) :
    p.update dir gh = p.train dir := by
  unfold Perceptron.update
  rw [updateCond_true]; rfl

/-- The final `y` of `predict` on four-element vectors. -/
theorem predictY_four (a b c d : Int) (e f g h : Bool) :
    (Perceptron.mk [a, b, c, d]).predictY [e, f, g, h] = wrapY (d * boolToInt h) := by
  rfl

/-! ## Predictor lemmas -/

theorem pushHistory_four (a b c d o : Bool) : pushHistory [a, b, c, d] o = [o, a, b, c] := by
  rfl

theorem update_perceptrons_length (s : BranchPredictor) (a : Nat) (o : Bool) :
    (s.update a o).perceptrons.length = s.perceptrons.length := by
  simp [BranchPredictor.update]

theorem update_history_length (s : BranchPredictor) (a : Nat) (o : Bool)
    (hh : s.global_history.length = HISTORY_LENGTH) :
    (s.update a o).global_history.length = HISTORY_LENGTH := by
  obtain ⟨e, f, g, h, hgh⟩ := exists_four s.global_history hh
  simp only [BranchPredictor.update, hgh, pushHistory_four]
  rfl

theorem hash_lt (a : Nat) : branch_address_hash a < NUM_PERCEPTRONS := by
  unfold branch_address_hash
  exact Nat.mod_lt _ (by decide)

theorem run_nil (s : BranchPredictor) : s.run [] = s := rfl

theorem run_cons (s : BranchPredictor) (c : Nat × Bool) (cs : List (Nat × Bool)) :
    s.run (c :: cs) = (s.update c.1 c.2).run cs := rfl

theorem run_perceptrons_length (s : BranchPredictor) (calls : List (Nat × Bool)) :
    (s.run calls).perceptrons.length = s.perceptrons.length := by
  induction calls generalizing s with
  | nil => rfl
  | cons c cs ih => rw [run_cons, ih, update_perceptrons_length]

theorem new_WF : Perceptron.new.WF := by decide

theorem train_WF (p : Perceptron) (dir : Bool) (hp : p.WF) : (p.train dir).WF := by
  obtain ⟨hlen, hr⟩ := hp
  obtain ⟨ws⟩ := p
  obtain ⟨a, b, c, d, rfl⟩ := exists_four ws hlen
  rw [train_four]
  rw [weight_max_eq] at hr
  have ha := trainWeight_range dir a (hr a (by simp)).1 (hr a (by simp)).2
  have hb := trainWeight_range dir b (hr b (by simp)).1 (hr b (by simp)).2
  have hc := trainWeight_range dir c (hr c (by simp)).1 (hr c (by simp)).2
  have hd := trainWeight_range dir d (hr d (by simp)).1 (hr d (by simp)).2
  refine ⟨rfl, ?_⟩
  rw [weight_max_eq]
  intro w hw
  simp only [List.mem_cons, List.mem_singleton, List.not_mem_nil, or_false] at hw
  rcases hw with rfl | rfl | rfl | rfl <;> constructor <;> omega

theorem getD_WF (ps : List Perceptron) (i : Nat) (h : ∀ p ∈ ps, p.WF) :
    (ps.getD i default).WF := by
  rw [List.getD_eq_getElem?_getD]
  cases hq : ps[i]? with
  | none => exact new_WF
  | some q => exact h q (List.getElem?_mem hq)

/-- Every perceptron being well formed is preserved by `BranchPredictor::update`. -/
theorem update_WF (s : BranchPredictor) (a : Nat) (o : Bool)
    (h : ∀ p ∈ s.perceptrons, p.WF) : ∀ p ∈ (s.update a o).perceptrons, p.WF := by
  intro p hp
  simp only [BranchPredictor.update] at hp
  rcases List.mem_or_eq_of_mem_set hp with hmem | rfl
  · exact h p hmem
  · rw [update_eq_train]
    exact train_WF _ _ (getD_WF _ _ h)

theorem new_predictor_WF : ∀ p ∈ BranchPredictor.new.perceptrons, p.WF := by decide

theorem run_WF (s : BranchPredictor) (calls : List (Nat × Bool))
    (h : ∀ p ∈ s.perceptrons, p.WF) : ∀ p ∈ (s.run calls).perceptrons, p.WF := by
  induction calls generalizing s with
  | nil => exact h
  | cons c cs ih => rw [run_cons]; exact ih _ (update_WF s c.1 c.2 h)

/-! ## Claims about the perceptron and the predictor -/

/-- C1 (code evaluated at a reachable state): after `update(0, false)` and
`update(4, true)` on a fresh predictor, slot 0 holds the weights `[-1, -1, -1, -1]`
and the history is `[true, false, false, false]`; the weighted sum over all four
positions is `-1 < 0`, yet the `y` left by the loop of `predict` is `0` and
`predict(0)` returns `true`. -/
theorem C1_predict_reads_last_position_only :
    ((BranchPredictor.new.update 0 false).update 4 true).perceptrons.getD
        (branch_address_hash 0) default = ⟨[-1, -1, -1, -1]⟩ ∧
    ((BranchPredictor.new.update 0 false).update 4 true).global_history
        = [true, false, false, false] ∧
    weightedSumSpec [-1, -1, -1, -1] [true, false, false, false] = -1 ∧
    (Perceptron.mk [-1, -1, -1, -1]).predictY [true, false, false, false] = 0 ∧
    (Perceptron.mk [-1, -1, -1, -1]).predict [true, false, false, false] = true ∧
    ((BranchPredictor.new.update 0 false).update 4 true).predict 0 = true := by
  decide

/-- C2 (code evaluated at a reachable state): after three `update(0, true)` and
three `update(4, false)` calls on a fresh predictor, slot 0 holds `[3, 3, 3, 3]` and
the history is `[false, false, false, true]`.  There the prediction is `true`, the
weighted-sum value is `3 > TRAINING_THRESHOLD` (both as the loop leaves it and summed
over all positions), so for outcome `true` the documented rule does not train; the
code's `update(true, history)` nevertheless moves every weight to `4`. -/
theorem C2_update_trains_despite_confident_agreement :
    (BranchPredictor.new.run
        [(0, true), (0, true), (0, true), (4, false), (4, false), (4, false)]).perceptrons.getD
        (branch_address_hash 0) default = ⟨[3, 3, 3, 3]⟩ ∧
    (BranchPredictor.new.run
        [(0, true), (0, true), (0, true), (4, false), (4, false), (4, false)]).global_history
        = [false, false, false, true] ∧
    (Perceptron.mk [3, 3, 3, 3]).predict [false, false, false, true] = true ∧
    (Perceptron.mk [3, 3, 3, 3]).predictY [false, false, false, true] = 3 ∧
    weightedSumSpec [3, 3, 3, 3] [false, false, false, true] = 3 ∧
    shouldTrainSpec ⟨[3, 3, 3, 3]⟩ true [false, false, false, true] = false ∧
    (Perceptron.mk [3, 3, 3, 3]).update true [false, false, false, true] = ⟨[4, 4, 4, 4]⟩ := by
  decide

/-- C3: on a predictor with `NUM_PERCEPTRONS` perceptrons and a history of
`HISTORY_LENGTH` bits, `update(a, o)` (1) replaces the perceptron at slot
`(a >> 2) mod 8` by its `Perceptron::update(o, h_old)` with `h_old` the history before
the call, (2) leaves every other slot as it was, and (3) leaves a history of the same
length with `o` at position 0 and `h_old[i - 1]` at every position `1 ≤ i < H`. -/
theorem C3_update_state (s : BranchPredictor) (a : Nat) (o : Bool)
    (hp : s.perceptrons.length = NUM_PERCEPTRONS)
    (hh : s.global_history.length = HISTORY_LENGTH) :
    branch_address_hash a = (a >>> 2) % 8 ∧
    (s.update a o).perceptrons.length = NUM_PERCEPTRONS ∧
    (∃ p, s.perceptrons[branch_address_hash a]? = some p ∧
      (s.update a o).perceptrons[branch_address_hash a]? =
        some (p.update o s.global_history)) ∧
    (∀ j, j ≠ branch_address_hash a →
      (s.update a o).perceptrons[j]? = s.perceptrons[j]?) ∧
    (s.update a o).global_history.length = HISTORY_LENGTH ∧
    (s.update a o).global_history[0]? = some o ∧
    (∀ i, 1 ≤ i → i < HISTORY_LENGTH →
      (s.update a o).global_history[i]? = s.global_history[i - 1]?) := by
  have hlt : branch_address_hash a < s.perceptrons.length := hp ▸ hash_lt a
  refine ⟨rfl, ?_, ?_, ?_, update_history_length s a o hh, ?_, ?_⟩
  · rw [update_perceptrons_length, hp]
  · refine ⟨s.perceptrons[branch_address_hash a], List.getElem?_eq_getElem hlt, ?_⟩
    simp only [BranchPredictor.update]
    rw [List.getElem?_set_self hlt, List.getD_eq_getElem?_getD, List.getElem?_eq_getElem hlt]
    rfl
  · intro j hj
    simp only [BranchPredictor.update]
    rw [List.getElem?_set_ne (Ne.symm hj)]
  · obtain ⟨e, f, g, h, hgh⟩ := exists_four s.global_history hh
    simp only [BranchPredictor.update, hgh, pushHistory_four]
    rfl
  · obtain ⟨e, f, g, h, hgh⟩ := exists_four s.global_history hh
    intro i h1 h2
    simp only [BranchPredictor.update, hgh, pushHistory_four]
    have h4 : HISTORY_LENGTH = 4 := rfl
    rw [h4] at h2
    have : i = 1 ∨ i = 2 ∨ i = 3 := by omega
    rcases this with rfl | rfl | rfl <;> rfl

theorem C3_update_state_witness :
    (BranchPredictor.new.update 0x1000 true).perceptrons[0]? = some ⟨[1, 1, 1, 1]⟩ ∧
    (BranchPredictor.new.update 0x1000 true).global_history[0]? = some true :=
  have h := C3_update_state BranchPredictor.new 0x1000 true (by decide) (by decide)
  ⟨by decide, h.2.2.2.2.2.1⟩

/-- C4: in a perceptron with `HISTORY_LENGTH` weights, a weight equal to
`WEIGHT_MAX = 7` becomes exactly the minimum `-WEIGHT_MAX - 1 = -8` after
`update(true, history)`, for every history. -/
theorem C4_weight_wrap_on_increment (p : Perceptron) (gh : List Bool) (i : Nat)
    (hlen : p.weights.length = HISTORY_LENGTH) (hi : p.weights[i]? = some WEIGHT_MAX) :
    (p.update true gh).weights[i]? = some (-8) ∧ (-8 : Int) = -WEIGHT_MAX - 1 := by
  refine ⟨?_, by decide⟩
  obtain ⟨ws⟩ := p
  obtain ⟨a, b, c, d, rfl⟩ := exists_four ws hlen
  rw [update_eq_train, train_four]
  have h7 : trainWeight true WEIGHT_MAX = -8 := by decide
  match i, hi with
  | 0, hi => simp only [List.getElem?_cons_zero, Option.some.injEq] at hi ⊢; rw [hi, h7]
  | 1, hi =>
    simp only [List.getElem?_cons_succ, List.getElem?_cons_zero, Option.some.injEq] at hi ⊢
    rw [hi, h7]
  | 2, hi =>
    simp only [List.getElem?_cons_succ, List.getElem?_cons_zero, Option.some.injEq] at hi ⊢
    rw [hi, h7]
  | 3, hi =>
    simp only [List.getElem?_cons_succ, List.getElem?_cons_zero, Option.some.injEq] at hi ⊢
    rw [hi, h7]
  | n + 4, hi => simp at hi

/-- The eighth consecutive `update(true, h)` on a reset perceptron: after seven calls
every weight is `7`, and the eighth wraps it to `-8`. -/
theorem C4_weight_wrap_on_increment_witness :
    ((fun p : Perceptron => p.update true [true, false, true, false])^[7] Perceptron.new.reset).weights
      = [7, 7, 7, 7] ∧
    (((fun p : Perceptron => p.update true [true, false, true, false])^[7] Perceptron.new.reset).update
      true [true, false, true, false]).weights[0]? = some (-8) :=
  ⟨by decide,
   (C4_weight_wrap_on_increment
      ((fun p : Perceptron => p.update true [true, false, true, false])^[7] Perceptron.new.reset)
      [true, false, true, false] 0 (by decide) (by decide)).1⟩

/-- C5 as stated fails: a weight at the minimum `-8` does not become
`WEIGHT_MAX - 1 = 6` after `update(false, history)`; it becomes `7`.  The same
happens on the ninth consecutive `update(false, h)` of a reset perceptron. -/
theorem C5_decrement_to_six_counterexample :
    (Perceptron.mk [-8, -8, -8, -8]).weights[0]? = some (-WEIGHT_MAX - 1) ∧
    ((Perceptron.mk [-8, -8, -8, -8]).update false [false, false, false, false]).weights[0]?
      ≠ some (WEIGHT_MAX - 1) ∧
    ((Perceptron.mk [-8, -8, -8, -8]).update false [false, false, false, false]).weights
      = [7, 7, 7, 7] ∧
    ((fun p : Perceptron => p.update false [false, false, false, false])^[8] Perceptron.new.reset).weights
      = [-8, -8, -8, -8] ∧
    ((fun p : Perceptron => p.update false [false, false, false, false])^[9] Perceptron.new.reset).weights
      = [7, 7, 7, 7] := by
  decide

/-- C5 (amended): in a perceptron with `HISTORY_LENGTH` weights, a weight equal to the
minimum `-WEIGHT_MAX - 1 = -8` becomes exactly `WEIGHT_MAX = 7` after
`update(false, history)`, for every history. -/
theorem C5_weight_wrap_on_decrement (p : Perceptron) (gh : List Bool) (i : Nat)
    (hlen : p.weights.length = HISTORY_LENGTH)
    (hi : p.weights[i]? = some (-WEIGHT_MAX - 1)) :
    (p.update false gh).weights[i]? = some 7 ∧ (7 : Int) = WEIGHT_MAX := by
  refine ⟨?_, by decide⟩
  obtain ⟨ws⟩ := p
  obtain ⟨a, b, c, d, rfl⟩ := exists_four ws hlen
  rw [update_eq_train, train_four]
  have h8 : trainWeight false (-WEIGHT_MAX - 1) = 7 := by decide
  match i, hi with
  | 0, hi => simp only [List.getElem?_cons_zero, Option.some.injEq] at hi ⊢; rw [hi, h8]
  | 1, hi =>
    simp only [List.getElem?_cons_succ, List.getElem?_cons_zero, Option.some.injEq] at hi ⊢
    rw [hi, h8]
  | 2, hi =>
    simp only [List.getElem?_cons_succ, List.getElem?_cons_zero, Option.some.injEq] at hi ⊢
    rw [hi, h8]
  | 3, hi =>
    simp only [List.getElem?_cons_succ, List.getElem?_cons_zero, Option.some.injEq] at hi ⊢
    rw [hi, h8]
  | n + 4, hi => simp at hi

/-- The ninth consecutive `update(false, h)` on a reset perceptron: after eight calls
every weight is `-8`, and the ninth wraps it to `7`. -/
theorem C5_weight_wrap_on_decrement_witness :
    ((fun p : Perceptron => p.update false [true, true, false, false])^[8] Perceptron.new.reset).weights
      = [-8, -8, -8, -8] ∧
    (((fun p : Perceptron => p.update false [true, true, false, false])^[8] Perceptron.new.reset).update
      false [true, true, false, false]).weights[3]? = some 7 :=
  ⟨by decide,
   (C5_weight_wrap_on_decrement
      ((fun p : Perceptron => p.update false [true, true, false, false])^[8] Perceptron.new.reset)
      [true, true, false, false] 3 (by decide) (by decide)).1⟩

/-- C6: in every state reached from a freshly constructed predictor by a finite
sequence of `update(address, outcome)` calls, every perceptron holds exactly
`HISTORY_LENGTH = 4` weights and every weight lies in `[-8, 7]`. -/
theorem C6_reachable_weights_in_range (calls : List (Nat × Bool)) (p : Perceptron)
    (hp : p ∈ (BranchPredictor.new.run calls).perceptrons) :
    p.weights.length = 4 ∧ ∀ w ∈ p.weights, -8 ≤ w ∧ w ≤ 7 :=
  run_WF BranchPredictor.new calls new_predictor_WF p hp

theorem C6_reachable_weights_in_range_witness :
    (⟨[-8, -8, -8, -8]⟩ : Perceptron) ∈
      (BranchPredictor.new.run [(0, true), (0, true), (0, true), (0, true), (0, true),
        (0, true), (0, true), (0, true), (4, false)]).perceptrons ∧
    ∀ w ∈ (⟨[-8, -8, -8, -8]⟩ : Perceptron).weights, -8 ≤ w ∧ w ≤ 7 :=
  ⟨by decide,
   (C6_reachable_weights_in_range [(0, true), (0, true), (0, true), (0, true), (0, true),
        (0, true), (0, true), (0, true), (4, false)] ⟨[-8, -8, -8, -8]⟩ (by decide)).2⟩

/-- C7: `branch_address_hash(a)` is `(a >> 2) mod 8`, with `NUM_PERCEPTRONS = 8`; it
is below `NUM_PERCEPTRONS` and below the table size of every state reached from a
fresh predictor, and equal addresses get equal slots. -/
theorem C7_hash_in_bounds (a : Nat) :
    NUM_PERCEPTRONS = 8 ∧
    branch_address_hash a = (a >>> 2) % 8 ∧
    branch_address_hash a < NUM_PERCEPTRONS ∧
    (∀ calls : List (Nat × Bool),
      branch_address_hash a < (BranchPredictor.new.run calls).perceptrons.length) ∧
    (∀ b : Nat, b = a → branch_address_hash b = branch_address_hash a) := by
  refine ⟨rfl, rfl, hash_lt a, ?_, ?_⟩
  · intro calls
    rw [run_perceptrons_length]
    exact hash_lt a
  · intro b hb
    rw [hb]

theorem C7_hash_in_bounds_witness :
    branch_address_hash 0x1000 = 0 ∧ branch_address_hash 0x100c = 3 ∧
    branch_address_hash 0x100c = (0x100c >>> 2) % 8 :=
  ⟨by decide, by decide, (C7_hash_in_bounds 0x100c).2.1⟩

/-- C8: from any predictor state whose history has `HISTORY_LENGTH = 4` bits, the
calls `update(a0, v0)`, `update(a1, v1)`, `update(a2, v2)`, `update(a3, v3)` leave
the history `[v3, v2, v1, v0]`, whatever the history was before. -/
theorem C8_history_after_four_updates (s : BranchPredictor) (a0 a1 a2 a3 : Nat)
    (v0 v1 v2 v3 : Bool) (hh : s.global_history.length = HISTORY_LENGTH) :
    ((((s.update a0 v0).update a1 v1).update a2 v2).update a3 v3).global_history
      = [v3, v2, v1, v0] := by
  obtain ⟨e, f, g, h, hgh⟩ := exists_four s.global_history hh
  simp only [BranchPredictor.update, hgh, pushHistory_four]

theorem C8_history_after_four_updates_witness :
    (((((BranchPredictor.mk BranchPredictor.new.perceptrons [true, true, false, true]).update
      0x1000 false).update 0x1004 true).update 0x2000 true).update 0x1000 false).global_history
      = [false, true, true, false] :=
  C8_history_after_four_updates ⟨BranchPredictor.new.perceptrons, [true, true, false, true]⟩
    0x1000 0x1004 0x2000 0x1000 false true true false (by decide)

/-! ## Evaluation-loop lemmas -/

theorem getElem?_eq_some_getD (l : List Nat) (i : Nat) (h : i < l.length) :
    l[i]? = some (l.getD i 0) := by
  rw [List.getD_eq_getElem?_getD, List.getElem?_eq_getElem h]; rfl

/-- An iteration whose three reads are in range runs the loop body on them. -/
theorem loopIter_in_range (trace : List (Nat × Nat)) (i : Nat) (st : RunState)
    (hi : i + 1 < trace.length) :
    loopIter (trace.map Prod.fst) (trace.map Prod.snd) i st =
      some (loopBody (addrAt trace i) (addrAt trace (i + 1)) (instrAt trace i) st) := by
  unfold loopIter addrAt instrAt
  rw [getElem?_eq_some_getD _ i (by simp; omega), getElem?_eq_some_getD _ (i + 1) (by simpa),
    getElem?_eq_some_getD (trace.map Prod.snd) i (by simp; omega)]

/-- Running `n + 1` iterations is running `n` and then iteration `i + n`. -/
theorem loopFrom_succ_last (as is : List Nat) (n i : Nat) (st : RunState) :
    loopFrom as is (n + 1) i st = (loopFrom as is n i st).bind (loopIter as is (i + n)) := by
  induction n generalizing i st with
  | zero =>
    simp only [loopFrom, Nat.add_zero, Option.some_bind]
    cases loopIter as is i st <;> rfl
  | succ n ih =>
    rw [loopFrom]
    conv_rhs => rw [loopFrom]
    cases h : loopIter as is i st with
    | none => rfl
    | some st1 =>
      simp only [Option.some_bind]
      rw [ih]
      have : i + 1 + n = i + (n + 1) := by omega
      rw [this]

theorem stateBefore_zero (trace : List (Nat × Nat)) : stateBefore trace 0 = some RunState.start :=
  rfl

theorem stateBefore_succ (trace : List (Nat × Nat)) (k : Nat) :
    stateBefore trace (k + 1) =
      (stateBefore trace k).bind (loopIter (trace.map Prod.fst) (trace.map Prod.snd) k) := by
  unfold stateBefore
  rw [loopFrom_succ_last, Nat.zero_add]

theorem loopBound_pos (n : Nat) (h0 : 0 < n) (h : n < 2 ^ 64) : loopBound n = n - 1 := by
  unfold loopBound; omega

/-- On a non-empty trace the whole loop is the first `size - 1` iterations. -/
theorem mainLoop_eq_stateBefore (trace : List (Nat × Nat)) (hne : trace ≠ [])
    (hlen : trace.length < 2 ^ 64) : mainLoop trace = stateBefore trace (trace.length - 1) := by
  unfold mainLoop stateBefore
  have h0 : 0 < trace.length := List.length_pos.mpr hne
  simp only [List.length_map]
  rw [loopBound_pos _ h0 hlen]

theorem range_succ_filter_length (q : Nat → Bool) (k : Nat) :
    ((List.range (k + 1)).filter q).length =
      ((List.range k).filter q).length + (if q k then 1 else 0) := by
  rw [List.range_succ, List.filter_append, List.length_append]
  cases h : q k <;> simp [h]

theorem filter_length_le_range (q : Nat → Bool) (k : Nat) :
    ((List.range k).filter q).length ≤ k := by
  have := List.length_filter_le q (List.range k)
  simpa using this

/-- Loop invariant: on entry to iteration `k` the two counters are the numbers of
branch positions, and of rightly predicted branch positions, below `k`. -/
theorem stateBefore_counters (trace : List (Nat × Nat)) (hlen : trace.length < 2 ^ 32)
    (k : Nat) (hk : k < trace.length) :
    ∃ st, stateBefore trace k = some st ∧
      st.total_branches = ((List.range k).filter (fun i => isBType (instrAt trace i))).length ∧
      st.correct_predictions =
        ((List.range k).filter
          (fun i => isBType (instrAt trace i) && predictedRight trace i)).length := by
  induction k with
  | zero => exact ⟨RunState.start, rfl, rfl, rfl⟩
  | succ k ih =>
    obtain ⟨st, hst, htot, hcor⟩ := ih (by omega)
    have hnext : stateBefore trace (k + 1) =
        some (loopBody (addrAt trace k) (addrAt trace (k + 1)) (instrAt trace k) st) := by
      rw [stateBefore_succ, hst, Option.some_bind, loopIter_in_range trace k st hk]
    refine ⟨_, hnext, ?_, ?_⟩
    · rw [range_succ_filter_length]
      have hle := filter_length_le_range (fun i => isBType (instrAt trace i)) k
      unfold loopBody
      cases hb : isBType (instrAt trace k)
      · simp [htot]
      · simp only [if_true]
        rw [htot]
        omega
    · rw [range_succ_filter_length]
      have hle := filter_length_le_range
        (fun i => isBType (instrAt trace i) && predictedRight trace i) k
      have hpr : predictedRight trace k =
          (branchTaken (addrAt trace k) (addrAt trace (k + 1)) ==
            st.branch_predictor.predict (addrAt trace k)) := by
        unfold predictedRight
        rw [hst, Option.map_some']
        cases branchTaken (addrAt trace k) (addrAt trace (k + 1)) <;>
          cases st.branch_predictor.predict (addrAt trace k) <;> rfl
      unfold loopBody
      cases hb : isBType (instrAt trace k)
      · simp [hcor]
      · simp only [if_true, Bool.true_and]
        rw [hpr]
        cases hq : (branchTaken (addrAt trace k) (addrAt trace (k + 1)) ==
            st.branch_predictor.predict (addrAt trace k))
        · simp [hcor]
        · simp only [if_true]
          rw [hcor]
          omega

theorem stateBefore_in_range (trace : List (Nat × Nat)) (k : Nat) (hk : k < trace.length) :
    ∃ st, stateBefore trace k = some st := by
  induction k with
  | zero => exact ⟨RunState.start, rfl⟩
  | succ k ih =>
    obtain ⟨st, hst⟩ := ih (by omega)
    exact ⟨_, by rw [stateBefore_succ, hst, Option.some_bind, loopIter_in_range trace k st hk]⟩

/-! ## Claims about the evaluation loop -/

/-- C9: on a trace (of fewer than `2 ^ 64` records, the range of `size_t`), the loop
is its first `size - 1` iterations, and at every position `i` that is not the last
record and whose instruction is branch-type, iteration `i` calls
`update(address[i], taken)` on the predictor of the state it enters with, where
`taken` holds iff `address[i + 1] ≠ (address[i] + 4) mod 2 ^ 32`. -/
theorem C9_actual_outcome (trace : List (Nat × Nat)) (i : Nat)
    (hlen : trace.length < 2 ^ 64) (hi : i + 1 < trace.length)
    (hb : instrAt trace i &&& 0x7F = 0x63) :
    mainLoop trace = stateBefore trace (trace.length - 1) ∧
    ∃ st taken, stateBefore trace i = some st ∧
      (taken = true ↔ addrAt trace (i + 1) ≠ (addrAt trace i + 4) % 2 ^ 32) ∧
      (stateBefore trace (i + 1)).map RunState.branch_predictor =
        some (st.branch_predictor.update (addrAt trace i) taken) := by
  have hne : trace ≠ [] := by
    intro h; rw [h] at hi; simp at hi
  refine ⟨mainLoop_eq_stateBefore trace hne hlen, ?_⟩
  obtain ⟨st, hst⟩ := stateBefore_in_range trace i (by omega)
  refine ⟨st, branchTaken (addrAt trace i) (addrAt trace (i + 1)), hst, ?_, ?_⟩
  · unfold branchTaken
    simp
  · have hbt : isBType (instrAt trace i) = true := by
      unfold isBType
      rw [beq_iff_eq]
      exact hb
    rw [stateBefore_succ, hst, Option.some_bind, loopIter_in_range trace i st hi]
    unfold loopBody
    rw [if_pos hbt]
    rfl

/-- The two scenarios of the specification: `0x1000` followed by `0x1008` gives
`update(0x1000, true)`, and `0x2000` followed by `0x2004` gives `update(0x2000, false)`. -/
theorem C9_actual_outcome_witness :
    (mainLoop [(0x1000, 0x00000063), (0x1008, 0x00000013)]).map RunState.branch_predictor
      = some (BranchPredictor.new.update 0x1000 true) ∧
    (mainLoop [(0x2000, 0x00000063), (0x2004, 0x00000013)]).map RunState.branch_predictor
      = some (BranchPredictor.new.update 0x2000 false) ∧
    mainLoop [(0x1000, 0x00000063), (0x1008, 0x00000013)]
      = stateBefore [(0x1000, 0x00000063), (0x1008, 0x00000013)] 1 :=
  ⟨by decide, by decide,
   (C9_actual_outcome [(0x1000, 0x00000063), (0x1008, 0x00000013)] 0
      (by decide) (by decide) (by decide)).1⟩

/-- C10: on a non-empty trace of fewer than `2 ^ 32` records the loop ends, with
`total_branches` the number of positions, the last record excluded, whose instruction
has `(instruction & 0x7F) == 0x63`, and `correct_predictions` the number of those
positions at which `predict(address[i])`, evaluated on entry to iteration `i`, equals
the actual outcome; so `correct_predictions ≤ total_branches`, and their quotient
lies in `[0, 1]` when `total_branches > 0`. -/
theorem C10_loop_counters (trace : List (Nat × Nat)) (hne : trace ≠ [])
    (hlen : trace.length < 2 ^ 32) :
    ∃ st, mainLoop trace = some st ∧
      st.total_branches = (branchPositions trace).length ∧
      st.correct_predictions = ((branchPositions trace).filter (predictedRight trace)).length ∧
      st.correct_predictions ≤ st.total_branches ∧
      (0 < st.total_branches →
        (0 : ℚ) ≤ (st.correct_predictions : ℚ) / (st.total_branches : ℚ) ∧
        (st.correct_predictions : ℚ) / (st.total_branches : ℚ) ≤ 1) := by
  have h0 : 0 < trace.length := List.length_pos.mpr hne
  obtain ⟨st, hst, htot, hcor⟩ :=
    stateBefore_counters trace hlen (trace.length - 1) (by omega)
  have hcor2 : st.correct_predictions =
      ((branchPositions trace).filter (predictedRight trace)).length := by
    rw [hcor]
    unfold branchPositions
    rw [List.filter_filter]
    congr 2
    funext i
    exact Bool.and_comm _ _
  have hle : st.correct_predictions ≤ st.total_branches := by
    rw [hcor2, htot]
    exact List.length_filter_le _ _
  refine ⟨st, ?_, htot, hcor2, hle, ?_⟩
  · rw [mainLoop_eq_stateBefore trace hne (by omega), hst]
  · intro hpos
    have hq : (0 : ℚ) < (st.total_branches : ℚ) := by exact_mod_cast hpos
    constructor
    · exact div_nonneg (Nat.cast_nonneg _) (Nat.cast_nonneg _)
    · rw [div_le_one hq]
      exact_mod_cast hle

/-- A five-record trace with three counted branches, two of them predicted rightly. -/
theorem C10_loop_counters_witness :
    (mainLoop [(0x1000, 0x63), (0x1008, 0x13), (0x100c, 0xfe000ee3), (0x1010, 0x63),
        (0x1000, 0x63)]).map
      (fun st => (st.total_branches, st.correct_predictions)) = some (3, 2) ∧
    ∃ st, mainLoop [(0x1000, 0x63), (0x1008, 0x13), (0x100c, 0xfe000ee3), (0x1010, 0x63),
        (0x1000, 0x63)] = some st ∧ st.correct_predictions ≤ st.total_branches :=
  ⟨by decide,
   (C10_loop_counters [(0x1000, 0x63), (0x1008, 0x13), (0x100c, 0xfe000ee3), (0x1010, 0x63),
        (0x1000, 0x63)] (by decide) (by decide)).imp
      (fun _ h => ⟨h.1, h.2.2.2.1⟩)⟩

/-! ## Lemmas for the end of `main` and for the value of `y` -/

/-- While no instruction below `k` is branch-type the loop state stays the initial one. -/
theorem stateBefore_no_branch (trace : List (Nat × Nat)) (k : Nat) (hk : k < trace.length)
    (hnb : ∀ i, i < k → isBType (instrAt trace i) = false) :
    stateBefore trace k = some RunState.start := by
  induction k with
  | zero => rfl
  | succ k ih =>
    rw [stateBefore_succ, ih (by omega) (fun i hi => hnb i (by omega)), Option.some_bind,
      loopIter_in_range trace k _ hk]
    unfold loopBody
    rw [hnb k (by omega)]
    rfl

/-- The `y` left by the loop of `Perceptron::predict` is the term of position 3. -/
theorem predictY_eq_last (p : Perceptron) (gh : List Bool) :
    p.predictY gh = wrapY (p.weights.getD 3 0 * boolToInt (gh.getD 3 false)) := rfl

theorem update_fun_eq_train (dir : Bool) (gh : List Bool) :
    (fun q : Perceptron => q.update dir gh) = fun q => q.train dir :=
  funext (fun q => update_eq_train q dir gh)

/-- A perceptron whose last weight is a non-negative 8-bit value predicts taken. -/
theorem predict_of_last_nonneg (q : Perceptron) (gh : List Bool)
    (h0 : 0 ≤ q.weights.getD 3 0) (h1 : q.weights.getD 3 0 ≤ 127) : q.predict gh = true := by
  unfold Perceptron.predict
  rw [predictY_eq_last, decide_eq_true_eq]
  cases gh.getD 3 false
  · have : q.weights.getD 3 0 * boolToInt false = 0 := by simp [boolToInt]
    rw [this]; decide
  · have : q.weights.getD 3 0 * boolToInt true = q.weights.getD 3 0 := by simp [boolToInt]
    rw [this, wrapY_of_range _ (by omega) (by omega)]
    exact h0

/-! ## Claims about the final result, confidence and training -/

/-- C11 as stated fails: on the two-record trace `(0x1000, 0x13), (0x1004, 0x13)` no
counted record is branch-type and `total_branches` is `0` after the loop, yet `main`
evaluates `(float)correct_predictions / total_branches`, that is `0 / 0`, and
reports that NaN in the accuracy line, not a result of its own. -/
theorem C11_no_distinct_result_counterexample :
    branchPositions [(0x1000, 0x13), (0x1004, 0x13)] = [] ∧
    (mainLoop [(0x1000, 0x13), (0x1004, 0x13)]).map RunState.total_branches = some 0 ∧
    mainAccuracy [(0x1000, 0x13), (0x1004, 0x13)] = some (floatDiv 0 0) ∧
    floatDiv 0 0 = FloatQuotient.nan ∧
    mainReport [(0x1000, 0x13), (0x1004, 0x13)] ≠ some (reportSpec 0 0) ∧
    mainReport [(0x1000, 0x13), (0x1004, 0x13)] ≠ some ReportSpec.noBranchesObserved := by
  decide

/-- C11 (amended): on every non-empty trace (of fewer than `2 ^ 64` records) in which
no counted record is branch-type, the loop ends in its initial state, both counters
`0`; `main` then evaluates `(float)correct_predictions / total_branches` as `0 / 0`
and reports that NaN in the ordinary accuracy line. -/
theorem C11_zero_branches_accuracy (trace : List (Nat × Nat)) (hne : trace ≠ [])
    (hlen : trace.length < 2 ^ 64) (hnb : branchPositions trace = []) :
    mainLoop trace = some RunState.start ∧
    mainAccuracy trace = some (floatDiv 0 0) ∧
    floatDiv 0 0 = FloatQuotient.nan ∧
    mainReport trace = some (ReportSpec.accuracy FloatQuotient.nan) := by
  have h0 : 0 < trace.length := List.length_pos.mpr hne
  have hno : ∀ i, i < trace.length - 1 → isBType (instrAt trace i) = false := by
    intro i hi
    unfold branchPositions at hnb
    rw [List.filter_eq_nil_iff] at hnb
    have := hnb i (List.mem_range.mpr hi)
    simpa using this
  have hloop : mainLoop trace = some RunState.start := by
    rw [mainLoop_eq_stateBefore trace hne hlen]
    exact stateBefore_no_branch trace _ (by omega) hno
  refine ⟨hloop, ?_, rfl, ?_⟩
  · unfold mainAccuracy
    rw [hloop]; rfl
  · unfold mainReport mainAccuracy
    rw [hloop]; rfl

theorem C11_zero_branches_accuracy_witness :
    mainLoop [(0x1000, 0x00000013), (0x1004, 0x00000013), (0x1008, 0x00000063)]
      = some RunState.start ∧
    mainAccuracy [(0x1000, 0x00000013), (0x1004, 0x00000013), (0x1008, 0x00000063)]
      = some FloatQuotient.nan :=
  have h := C11_zero_branches_accuracy
    [(0x1000, 0x00000013), (0x1004, 0x00000013), (0x1008, 0x00000063)]
    (by decide) (by decide) (by decide)
  ⟨h.1, h.2.1⟩

/-- C12 (code evaluated on the scenario): on a fresh predictor the `y` of
`predict(0x1000)` is `0`; after `update(0x1000, true)` slot 0 holds `[1, 1, 1, 1]`, the
history is `[true, false, false, false]` and `predict(0x1000)` returns taken, but its
`y` is `0` again, not greater, whereas the sum over all positions has risen from `0`
to `1`. -/
theorem C12_confidence_not_raised :
    BranchPredictor.new.predictY 0x1000 = 0 ∧
    (BranchPredictor.new.update 0x1000 true).perceptrons.getD
        (branch_address_hash 0x1000) default = ⟨[1, 1, 1, 1]⟩ ∧
    (BranchPredictor.new.update 0x1000 true).global_history = [true, false, false, false] ∧
    (BranchPredictor.new.update 0x1000 true).predict 0x1000 = true ∧
    (BranchPredictor.new.update 0x1000 true).predictY 0x1000 = 0 ∧
    ¬ (BranchPredictor.new.predictY 0x1000
        < (BranchPredictor.new.update 0x1000 true).predictY 0x1000) ∧
    weightedSumSpec [0, 0, 0, 0] [false, false, false, false] = 0 ∧
    weightedSumSpec [1, 1, 1, 1] [true, false, false, false] = 1 := by
  decide

/-- C13: for a perceptron with `HISTORY_LENGTH` weights in `[-8, 7]`, all strictly
below `WEIGHT_MAX`, and a fixed history `h`, the `y` that `predict` computes for `h`
after `update(true, h)` is at least the `y` it computes before; and after `k ≤ 7`
calls of `update(true, h)` on a reset perceptron, `predict(h)` returns true. -/
theorem C13_training_monotone (p : Perceptron) (h : List Bool) (hwf : p.WF)
    (hlt : ∀ w ∈ p.weights, w < WEIGHT_MAX) :
    p.predictY h ≤ (p.update true h).predictY h ∧
    ∀ k, k ≤ 7 →
      ((fun q : Perceptron => q.update true h)^[k] Perceptron.new.reset).predict h = true := by
  constructor
  · obtain ⟨hlen, hr⟩ := hwf
    obtain ⟨ws⟩ := p
    obtain ⟨a, b, c, d, rfl⟩ := exists_four ws hlen
    rw [weight_max_eq] at hr hlt
    have hd := hr d (by simp)
    have hd7 := hlt d (by simp)
    rw [update_eq_train, train_four, predictY_eq_last, predictY_eq_last]
    show wrapY (d * boolToInt (h.getD 3 false))
      ≤ wrapY (trainWeight true d * boolToInt (h.getD 3 false))
    rw [trainWeight_of_range true d hd.1 hd.2, if_pos rfl, if_neg (by omega)]
    cases h.getD 3 false
    · simp [boolToInt]
    · have e1 : d * boolToInt true = d := by simp [boolToInt]
      have e2 : (d + 1) * boolToInt true = d + 1 := by simp [boolToInt]
      rw [e1, e2, wrapY_of_range _ (by omega) (by omega),
        wrapY_of_range _ (by omega) (by omega)]
      omega
  · intro k hk
    rw [update_fun_eq_train]
    interval_cases k <;> exact predict_of_last_nonneg _ h (by decide) (by decide)

theorem C13_training_monotone_witness :
    (Perceptron.mk [6, 6, 6, 6]).predictY [true, false, true, true]
      ≤ ((Perceptron.mk [6, 6, 6, 6]).update true [true, false, true, true]).predictY
          [true, false, true, true] ∧
    ((Perceptron.mk [6, 6, 6, 6]).update true [true, false, true, true]).predictY
      [true, false, true, true] = 7 :=
  ⟨(C13_training_monotone ⟨[6, 6, 6, 6]⟩ [true, false, true, true] (by decide)
      (by decide)).1, by decide⟩

/-- C14: `BranchPredictor::predict(a)` hands the object back as it was, table and
history included, so a second `predict(a)` right after it returns the same value. -/
theorem C14_predict_is_pure (s : BranchPredictor) (a : Nat) :
    (s.predictCall a).2 = s ∧
    (s.predictCall a).2.perceptrons = s.perceptrons ∧
    (s.predictCall a).2.global_history = s.global_history ∧
    (s.predictCall a).1 = s.predict a ∧
    ((s.predictCall a).2.predictCall a).1 = (s.predictCall a).1 :=
  ⟨rfl, rfl, rfl, rfl, rfl⟩

/-- C15: a freshly constructed predictor has `NUM_PERCEPTRONS = 128 / (4 * 4) = 8`
perceptrons, each with the four weights `0`, and the history of four `false` bits;
`Perceptron::reset` turns any weight vector into zeros of the same length. -/
theorem C15_fresh_state (p : Perceptron) :
    NUM_PERCEPTRONS = STORAGE_B / (HISTORY_LENGTH * BIT_WIDTH_WEIGHTS) ∧
    NUM_PERCEPTRONS = 128 / (4 * 4) ∧
    NUM_PERCEPTRONS = 8 ∧
    BranchPredictor.new.perceptrons = List.replicate 8 ⟨[0, 0, 0, 0]⟩ ∧
    BranchPredictor.new.perceptrons.length = 8 ∧
    BranchPredictor.new.global_history = [false, false, false, false] ∧
    p.reset.weights = List.replicate p.weights.length 0 ∧
    p.reset.weights.length = p.weights.length := by
  refine ⟨rfl, by decide, by decide, by decide, by decide, by decide, ?_, ?_⟩
  · exact List.map_const' _ _
  · simp [Perceptron.reset]

/-! ## Lemmas on the shape of reachable states -/

theorem trainWeight_eq_wrap4 (dir : Bool) (w : Int) (h1 : -8 ≤ w) (h2 : w ≤ 7) :
    trainWeight dir w = wrap4 (w + (if dir then 1 else -1)) := by
  rw [trainWeight_of_range dir w h1 h2]
  unfold wrap4
  cases dir <;> simp only [Bool.false_eq_true, if_true, if_false] <;> split_ifs <;> omega

theorem getD_zero_or_mem (l : List Int) (i : Nat) : l.getD i 0 = 0 ∨ l.getD i 0 ∈ l := by
  rw [List.getD_eq_getElem?_getD]
  cases hq : l[i]? with
  | none => exact Or.inl rfl
  | some w => exact Or.inr (List.getElem?_mem hq)

/-- A property of perceptrons that the default perceptron has and training keeps
holds of every perceptron after any sequence of `update` calls. -/
theorem run_invariant (P : Perceptron → Prop) (hdef : P default)
    (htrain : ∀ q dir, P q → P (q.train dir)) (s : BranchPredictor)
    (calls : List (Nat × Bool)) (h : ∀ p ∈ s.perceptrons, P p) :
    ∀ p ∈ (s.run calls).perceptrons, P p := by
  induction calls generalizing s with
  | nil => exact h
  | cons c cs ih =>
    rw [run_cons]
    apply ih
    intro p hp
    simp only [BranchPredictor.update] at hp
    rcases List.mem_or_eq_of_mem_set hp with hmem | rfl
    · exact h p hmem
    · rw [update_eq_train]
      apply htrain
      rw [List.getD_eq_getElem?_getD]
      cases hq : s.perceptrons[branch_address_hash c.1]? with
      | none => exact hdef
      | some q => exact h q (List.getElem?_mem hq)

theorem run_snoc (s : BranchPredictor) (cs : List (Nat × Bool)) (c : Nat × Bool) :
    s.run (cs ++ [c]) = (s.run cs).update c.1 c.2 := by
  simp [BranchPredictor.run, List.foldl_append]

theorem pushHistory_eq (gh : List Bool) (o : Bool) (h : gh.length = 4) :
    pushHistory gh o = o :: gh.take 3 := by
  obtain ⟨a, b, c, d, rfl⟩ := exists_four gh h
  rfl

/-- The history after a sequence of `update` calls on a fresh predictor: the outcomes,
most recent first, padded with the initial `false` bits and cut to four. -/
theorem run_history (calls : List (Nat × Bool)) :
    (BranchPredictor.new.run calls).global_history
      = (recentOutcomes calls ++ List.replicate 4 false).take 4 := by
  induction calls using List.reverseRecOn with
  | nil => rfl
  | append_singleton cs c ih =>
    rw [run_snoc]
    show pushHistory (BranchPredictor.new.run cs).global_history c.2 = _
    rw [ih, pushHistory_eq _ _ (by simp)]
    have hr : recentOutcomes (cs ++ [c]) = c.2 :: recentOutcomes cs := by
      simp [recentOutcomes]
    rw [hr, List.cons_append, List.take_succ_cons, List.take_take]
    rfl

theorem predict_of_last_bit_false (p : Perceptron) (gh : List Bool)
    (h : gh.getD 3 false = false) : p.predict gh = true := by
  unfold Perceptron.predict
  rw [predictY_eq_last, h]
  have : p.weights.getD 3 0 * boolToInt false = 0 := by simp [boolToInt]
  rw [this]; decide

/-- Position 3 of the history after `calls`, read off the outcome list. -/
theorem run_history_last (calls : List (Nat × Bool)) :
    (BranchPredictor.new.run calls).global_history.getD 3 false
      = ((recentOutcomes calls)[3]?).getD false := by
  rw [run_history, List.getD_eq_getElem?_getD, List.getElem?_take_of_lt (by omega)]
  by_cases h3 : 3 < (recentOutcomes calls).length
  · rw [List.getElem?_append_left h3]
  · rw [List.getElem?_append_right (by omega),
      List.getElem?_replicate_of_lt (by omega), List.getElem?_eq_none (by omega)]
    rfl

/-! ## Claims about the behaviour of the code as written -/

/-- C16: for a perceptron with `HISTORY_LENGTH` 8-bit weights and a history of
`HISTORY_LENGTH` bits, the `y` that `predict` ends with is `w[3] * h[3]`; `predict`
returns false iff `h[3]` is set and `w[3] < 0`, and any other perceptron and history
with the same `w[3]` and `h[3]` give the same prediction. -/
theorem C16_predict_last_position (p : Perceptron) (h : List Bool)
    (hlen : p.weights.length = HISTORY_LENGTH) (hh : h.length = HISTORY_LENGTH)
    (h8 : ∀ w ∈ p.weights, -128 ≤ w ∧ w ≤ 127) :
    ∃ w3 h3, p.weights[3]? = some w3 ∧ h[3]? = some h3 ∧
      p.predictY h = w3 * boolToInt h3 ∧
      (p.predict h = false ↔ (h3 = true ∧ w3 < 0)) ∧
      ∀ (q : Perceptron) (g : List Bool), q.weights[3]? = some w3 → g[3]? = some h3 →
        q.predict g = p.predict h := by
  obtain ⟨ws⟩ := p
  obtain ⟨a, b, c, d, rfl⟩ := exists_four ws hlen
  obtain ⟨e, f, g, k, rfl⟩ := exists_four h hh
  have hd := h8 d (by simp)
  have hy : (Perceptron.mk [a, b, c, d]).predictY [e, f, g, k] = d * boolToInt k := by
    rw [predictY_four]
    cases k
    · have : d * boolToInt false = 0 := by simp [boolToInt]
      rw [this]; rfl
    · have : d * boolToInt true = d := by simp [boolToInt]
      rw [this]
      exact wrapY_of_range _ (by omega) (by omega)
  refine ⟨d, k, rfl, rfl, hy, ?_, ?_⟩
  · unfold Perceptron.predict
    rw [hy, decide_eq_false_iff_not]
    cases k <;> simp [boolToInt]
  · intro q g2 hq hg
    unfold Perceptron.predict
    rw [hy, predictY_eq_last, List.getD_eq_getElem?_getD, List.getD_eq_getElem?_getD, hq, hg,
      ← hy, predictY_four]
    rfl

theorem C16_predict_last_position_witness :
    (Perceptron.mk [7, 7, 7, -1]).predict [false, false, false, true] = false ∧
    (Perceptron.mk [-8, -8, -8, 0]).predict [true, true, true, true] = true ∧
    ∃ w3 h3, (Perceptron.mk [7, 7, 7, -1]).weights[3]? = some w3 ∧
      [false, false, false, true][3]? = some h3 ∧
      (Perceptron.mk [7, 7, 7, -1]).predictY [false, false, false, true]
        = w3 * boolToInt h3 :=
  ⟨by decide, by decide,
   (C16_predict_last_position ⟨[7, 7, 7, -1]⟩ [false, false, false, true] (by decide)
      (by decide) (by decide)).imp
      (fun _ hw => hw.imp (fun _ hx => ⟨hx.1, hx.2.1, hx.2.2.1⟩))⟩

/-- C17: for a perceptron with `HISTORY_LENGTH` weights in `[-8, 7]`, every outcome and
every history, the `y` compared in `update` is `0` or `1`, so its absolute value is
within `TRAINING_THRESHOLD` and the guard holds; `update` replaces each weight `w` by
the 4-bit wrap of `w + 1` (taken) or `w - 1` (not taken), and the result is the same
for every history. -/
theorem C17_update_always_trains (p : Perceptron) (o : Bool) (h : List Bool) (hwf : p.WF) :
    (p.updateY h = 0 ∨ p.updateY h = 1) ∧
    cabs (p.updateY h) ≤ TRAINING_THRESHOLD ∧
    p.updateCond o h = true ∧
    (p.update o h).weights = p.weights.map (fun w => wrap4 (w + (if o then 1 else -1))) ∧
    ∀ g : List Bool, p.update o g = p.update o h := by
  have hy : p.updateY h = 0 ∨ p.updateY h = 1 := by
    rw [updateY_eq]
    cases p.predict h
    · exact Or.inl rfl
    · exact Or.inr rfl
  refine ⟨hy, ?_, updateCond_true p o h, ?_, ?_⟩
  · rcases hy with h0 | h1
    · rw [h0]; decide
    · rw [h1]; decide
  · obtain ⟨hlen, hr⟩ := hwf
    obtain ⟨ws⟩ := p
    obtain ⟨a, b, c, d, rfl⟩ := exists_four ws hlen
    rw [weight_max_eq] at hr
    rw [update_eq_train, train_four]
    simp only [List.map_cons, List.map_nil]
    rw [trainWeight_eq_wrap4 o a (hr a (by simp)).1 (hr a (by simp)).2,
      trainWeight_eq_wrap4 o b (hr b (by simp)).1 (hr b (by simp)).2,
      trainWeight_eq_wrap4 o c (hr c (by simp)).1 (hr c (by simp)).2,
      trainWeight_eq_wrap4 o d (hr d (by simp)).1 (hr d (by simp)).2]
  · intro g
    rw [update_eq_train, update_eq_train]

theorem C17_update_always_trains_witness :
    ((Perceptron.mk [7, -8, 3, 0]).update true [false, false, false, true]).weights
      = [7, -8, 3, 0].map (fun w => wrap4 (w + 1)) ∧
    ((Perceptron.mk [7, -8, 3, 0]).update true [false, false, false, true]).weights
      = [-8, -7, 4, 1] :=
  ⟨(C17_update_always_trains ⟨[7, -8, 3, 0]⟩ true [false, false, false, true]
      (by decide)).2.2.2.1, by decide⟩

/-- C18: in every state reached from a freshly constructed predictor by a sequence of
`update` calls, the `HISTORY_LENGTH` weights of any perceptron are one and the same
value. -/
theorem C18_reachable_weights_equal (calls : List (Nat × Bool)) (p : Perceptron)
    (hp : p ∈ (BranchPredictor.new.run calls).perceptrons) :
    (∃ c, p.weights = List.replicate HISTORY_LENGTH c) ∧
    ∀ w1 ∈ p.weights, ∀ w2 ∈ p.weights, w1 = w2 := by
  have key : ∃ c, p.weights = List.replicate HISTORY_LENGTH c := by
    refine run_invariant (fun q => ∃ c, q.weights = List.replicate HISTORY_LENGTH c)
      ⟨0, rfl⟩ ?_ BranchPredictor.new calls ?_ p hp
    · rintro ⟨ws⟩ dir ⟨c, hc⟩
      have hc4 : ws = [c, c, c, c] := hc
      subst hc4
      exact ⟨trainWeight dir c, by rw [train_four]; rfl⟩
    · intro q hq
      have hq0 : q = ⟨[0, 0, 0, 0]⟩ := by
        have hall : ∀ r ∈ BranchPredictor.new.perceptrons, r = ⟨[0, 0, 0, 0]⟩ := by decide
        exact hall q hq
      exact ⟨0, by rw [hq0]; rfl⟩
  refine ⟨key, ?_⟩
  obtain ⟨c, hc⟩ := key
  intro w1 h1 w2 h2
  rw [hc] at h1 h2
  rw [List.eq_of_mem_replicate h1, List.eq_of_mem_replicate h2]

theorem C18_reachable_weights_equal_witness :
    (⟨[2, 2, 2, 2]⟩ : Perceptron) ∈
      (BranchPredictor.new.run [(0x1000, true), (0x2004, false), (0x1000, true)]).perceptrons ∧
    ∃ c, (⟨[2, 2, 2, 2]⟩ : Perceptron).weights = List.replicate HISTORY_LENGTH c :=
  ⟨by decide,
   (C18_reachable_weights_equal [(0x1000, true), (0x2004, false), (0x1000, true)]
      ⟨[2, 2, 2, 2]⟩ (by decide)).1⟩

/-- C19: for 8-bit signed weights and any history, the value assigned to `y` at any
position `i`, `w[i] * h[i]`, lies in `[-256, 255]`, so `CHECK_OVERFLOW_Y` is false on
it and the iteration leaves `y` equal to that product: the wrap block never runs. -/
theorem C19_y_wrap_unreachable (p : Perceptron) (h : List Bool) (y : Int) (i : Nat)
    (h8 : ∀ w ∈ p.weights, -128 ≤ w ∧ w ≤ 127) :
    -256 ≤ p.weights.getD i 0 * boolToInt (h.getD i false) ∧
    p.weights.getD i 0 * boolToInt (h.getD i false) ≤ 255 ∧
    CHECK_OVERFLOW_Y (p.weights.getD i 0 * boolToInt (h.getD i false)) = false ∧
    p.predictStep h y i = p.weights.getD i 0 * boolToInt (h.getD i false) := by
  have hw : -128 ≤ p.weights.getD i 0 ∧ p.weights.getD i 0 ≤ 127 := by
    rcases getD_zero_or_mem p.weights i with h0 | hm
    · rw [h0]; constructor <;> decide
    · exact h8 _ hm
  have hprod : -128 ≤ p.weights.getD i 0 * boolToInt (h.getD i false) ∧
      p.weights.getD i 0 * boolToInt (h.getD i false) ≤ 127 := by
    cases h.getD i false
    · simp [boolToInt]
    · simp only [boolToInt, if_true, mul_one]
      exact hw
  refine ⟨by omega, by omega, ?_, ?_⟩
  · unfold CHECK_OVERFLOW_Y
    rw [y_max_eq]
    simp only [Bool.or_eq_false_iff, decide_eq_false_iff_not]
    omega
  · unfold Perceptron.predictStep
    exact wrapY_of_range _ (by omega) (by omega)

theorem C19_y_wrap_unreachable_witness :
    CHECK_OVERFLOW_Y ((Perceptron.mk [127, -128, 5, -1]).weights.getD 1 0
      * boolToInt ([true, true, false, true].getD 1 false)) = false ∧
    (Perceptron.mk [127, -128, 5, -1]).weights.getD 1 0
      * boolToInt ([true, true, false, true].getD 1 false) = -128 :=
  ⟨(C19_y_wrap_unreachable ⟨[127, -128, 5, -1]⟩ [true, true, false, true] 0 1
      (by decide)).2.2.1, by decide⟩

/-- C20: after any sequence of `update` calls on a fresh predictor, the history is the
outcomes most recent first, padded with `false`; while fewer than `HISTORY_LENGTH = 4`
updates have been made `predict(a)` returns taken for every address, and whenever
`predict(a)` returns not-taken the fourth most recent update recorded taken. -/
theorem C20_early_predictions_taken (calls : List (Nat × Bool)) (a : Nat) :
    (BranchPredictor.new.run calls).global_history
      = (recentOutcomes calls ++ List.replicate 4 false).take 4 ∧
    (calls.length < HISTORY_LENGTH → (BranchPredictor.new.run calls).predict a = true) ∧
    ((BranchPredictor.new.run calls).predict a = false →
      (recentOutcomes calls)[3]? = some true) := by
  have hlast := run_history_last calls
  refine ⟨run_history calls, ?_, ?_⟩
  · intro hlt
    have h4 : HISTORY_LENGTH = 4 := rfl
    apply predict_of_last_bit_false
    rw [hlast, List.getElem?_eq_none (by simp [recentOutcomes]; omega)]
    rfl
  · intro hf
    cases hb : (BranchPredictor.new.run calls).global_history.getD 3 false with
    | false =>
      have := predict_of_last_bit_false
        ((BranchPredictor.new.run calls).perceptrons.getD (branch_address_hash a) default) _ hb
      have hf2 : ((BranchPredictor.new.run calls).perceptrons.getD
          (branch_address_hash a) default).predict
            (BranchPredictor.new.run calls).global_history = false := hf
      rw [this] at hf2
      exact absurd hf2 (by decide)
    | true =>
      rw [hlast] at hb
      cases hr : (recentOutcomes calls)[3]? with
      | none => rw [hr] at hb; exact absurd hb (by decide)
      | some v =>
        rw [hr] at hb
        have hv : v = true := hb
        rw [hv]

/-- Four updates, the first of them taken: the history's last bit is set and slot 1,
trained down three times, predicts not-taken. -/
theorem C20_early_predictions_taken_witness :
    (BranchPredictor.new.run [(0, true), (4, false), (4, false), (4, false)]).predict 4
      = false ∧
    (recentOutcomes [(0, true), (4, false), (4, false), (4, false)])[3]? = some true ∧
    (BranchPredictor.new.run [(0, true), (4, false), (4, false)]).predict 4 = true :=
  ⟨by decide,
   (C20_early_predictions_taken [(0, true), (4, false), (4, false), (4, false)] 4).2.2
      (by decide),
   (C20_early_predictions_taken [(0, true), (4, false), (4, false)] 4).2.1 (by decide)⟩

end FuncSim
